import Mathlib

/-!
Shallow embedding of the b2battle tournament WebSocket server.

Source files: src/websocket-server.js (the variant with the Redis
availability flag and the spool-file fallback poller) and
src/unnamed/part_000 (the Railway deployment variant of the same core).
The definitions below translate the JavaScript source: the connection
registry (clients, a JS Set), the broadcast engine, the connection
lifecycle handlers, the startRedis startup sequence, and the setInterval
spool poll loop.

Modelling conventions:
* JSON payloads are represented by the Payload type; an event envelope
  carries an event string and a payload.  JSON.stringify is computed once
  per broadcast and is injective on envelopes, so delivery is tracked at
  the envelope level.
* The JS runtime is single threaded: handler bodies never interleave, so
  a run of the system is a fold of atomic handler steps over a list of
  events (connection accepted, socket closed, socket errored, socket
  condition changed by the environment, broadcast invoked by a transport).
* Per-socket conditions that live in the transport layer (readyState, and
  whether a send on the socket throws) are state components written by
  environment events; the registry only stores socket identities, as the
  JS Set stores socket handles.
* File system results are modelled as state: the spool directory is a
  list of files, and the JSON.parse outcome for the text of a spool file
  is recorded in the file as an Option Envelope (none when malformed).
-/

namespace WsServer

/-- Structured JSON payload of an event envelope.  The messageObj
constructor is the one-field object shape used by the connected greeting;
all other payloads are opaque structured values distinguished by a tag. -/
inductive Payload where
  | messageObj (message : String) : Payload
  | raw (tag : Nat) : Payload
deriving DecidableEq, Repr

/-- An event envelope: the unit of broadcastable data, as in the source
the wire shape is an object with an event string and a payload. -/
structure Envelope where
  event : String
  payload : Payload
deriving DecidableEq, Repr

/-- The greeting envelope sent by the connection handler
(websocket-server.js lines 51 to 54). -/
def connectedEnvelope : Envelope :=
  { event := "connected"
    payload := Payload.messageObj "Connected to tournament WebSocket server" }

/-- WebSocket.OPEN readyState constant. -/
def wsOPEN : Nat := 1

/-- State of the WebSocket side of the server.  clients is the JS Set of
registered sockets (insertion order); ready and fails are the per-socket
transport conditions (readyState, and whether a send call throws); inbox
records, per socket, the messages successfully delivered to it. -/
structure SysState where
  clients : List Nat
  ready : Nat → Nat
  fails : Nat → Bool
  inbox : Nat → List Envelope

/-- One iteration of the for loop inside broadcast
(websocket-server.js lines 76 to 89): if the readyState of the client is
OPEN, attempt the send; a throwing send is caught and counted as failed;
a client that is not open is counted as failed without a send attempt.
The accumulator is the state together with the sent and failed counters. -/
def sendTo (message : Envelope) (acc : SysState × Nat × Nat) (c : Nat) :
    SysState × Nat × Nat :=
  if acc.1.ready c == wsOPEN then
    if acc.1.fails c then
      (acc.1, acc.2.1, acc.2.2 + 1)
    else
      ({ acc.1 with
          inbox := fun x => if x == c then acc.1.inbox c ++ [message] else acc.1.inbox x },
        acc.2.1 + 1, acc.2.2)
  else
    (acc.1, acc.2.1, acc.2.2 + 1)

/-- The broadcast function (websocket-server.js lines 66 to 93): the
envelope is serialized once and the for loop walks the registry,
delivering to each open client and counting sent and failed deliveries. -/
def broadcast (event : Envelope) (s : SysState) : SysState × Nat × Nat :=
  s.clients.foldl (sendTo event) (s, 0, 0)

/-- Events a run of the WebSocket side of the server can process:
connection accepted (the wss connection handler), socket close and error
(the per-socket handlers), a change of the transport-level socket
condition made by the environment, and an invocation of broadcast by one
of the two transports. -/
inductive SysEvent where
  | connect (c : Nat) : SysEvent
  | closeEvt (c : Nat) : SysEvent
  | errorEvt (c : Nat) : SysEvent
  | sockSet (c : Nat) (readyState : Nat) (sendFails : Bool) : SysEvent
  | broadcastCall (env : Envelope) : SysEvent
deriving DecidableEq, Repr

/-- One handler step.  connect translates the wss connection handler
(lines 47 to 54): the socket arrives open and sendable, is added to the
Set (JS Set add: no duplicate entries), and the greeting envelope is sent
to it at once.  closeEvt and errorEvt translate the close and error
handlers (lines 56 to 63): they delete the socket from the Set.  sockSet
is an environment event updating the transport condition of one socket.
broadcastCall runs the broadcast function. -/
def step (s : SysState) (e : SysEvent) : SysState :=
  match e with
  | SysEvent.connect c =>
      let s1 : SysState :=
        { s with
            clients := if s.clients.contains c then s.clients else s.clients ++ [c]
            ready := fun x => if x == c then wsOPEN else s.ready x
            fails := fun x => if x == c then false else s.fails x }
      { s1 with inbox := fun x => if x == c then s1.inbox c ++ [connectedEnvelope] else s1.inbox x }
  | SysEvent.closeEvt c => { s with clients := s.clients.erase c }
  | SysEvent.errorEvt c => { s with clients := s.clients.erase c }
  | SysEvent.sockSet c rs fl =>
      { s with
          ready := fun x => if x == c then rs else s.ready x
          fails := fun x => if x == c then fl else s.fails x }
  | SysEvent.broadcastCall env => (broadcast env s).1

/-- Run a list of events from a state. -/
def run (s : SysState) (t : List SysEvent) : SysState :=
  t.foldl step s

/-- The state at process start: empty registry, no socket open, nothing
delivered. -/
def initState : SysState :=
  { clients := [], ready := fun _ => 0, fails := fun _ => false, inbox := fun _ => [] }

/-- Run a list of events from process start. -/
def runInit (t : List SysEvent) : SysState :=
  run initState t

/-- Whether an event concerns the socket with identity c. -/
def targets (e : SysEvent) (c : Nat) : Bool :=
  match e with
  | SysEvent.connect d => d == c
  | SysEvent.closeEvt d => d == c
  | SysEvent.errorEvt d => d == c
  | SysEvent.sockSet d _ _ => d == c
  | SysEvent.broadcastCall _ => false

/-- No event of the list concerns the socket with identity c: the socket
stays in whatever lifecycle and transport condition it had. -/
def untouched (c : Nat) (t : List SysEvent) : Bool :=
  t.all (fun e => !targets e c)

/-- The envelopes passed to broadcast during a list of events, in call
order. -/
def broadcastsOf (t : List SysEvent) : List Envelope :=
  t.filterMap (fun e =>
    match e with
    | SysEvent.broadcastCall env => some env
    | _ => none)

/-! ### The Redis startup sequence (startRedis, websocket-server.js lines 101 to 163) -/

/-- Observable state of the startRedis sequence: the availability flag
redisAvailable, and whether the subscribe await has completed
successfully. -/
structure RedisState where
  redisAvailable : Bool
  subscribeDone : Bool
deriving DecidableEq, Repr

/-- Trace of the redisAvailable flag along the startRedis control flow
(websocket-server.js lines 107 to 162), one entry per awaited step, for
each combination of outcomes of the three awaited operations: connect of
the publish client, connect of the subscriber, and the subscribe call.  A
failed await throws to the catch block, which sets redisAvailable false.
Note the source order: redisAvailable is assigned true on line 134, after
both connects but before the subscribe await on line 138. -/
def startRedisTrace (clientOk subOk subscribeOk : Bool) : List RedisState :=
  let s0 : RedisState := { redisAvailable := false, subscribeDone := false }
  if clientOk = false then
    [s0, { redisAvailable := false, subscribeDone := false }]
  else if subOk = false then
    [s0, s0, { redisAvailable := false, subscribeDone := false }]
  else
    let s1 : RedisState := { redisAvailable := true, subscribeDone := false }
    if subscribeOk then
      [s0, s0, s1, { redisAvailable := true, subscribeDone := true }]
    else
      [s0, s0, s1, { redisAvailable := false, subscribeDone := false }]

/-! ### The spool-file fallback poller (websocket-server.js lines 175 to 211) -/

/-- A file of the spool directory: its name, its last-modified time in
milliseconds, and the JSON.parse outcome of its text (none when the text
is malformed). -/
structure SpoolFile where
  name : String
  mtimeMs : Nat
  content : Option Envelope
deriving DecidableEq, Repr

/-- State read and written by one poll scan: the availability flag, the
processedFiles Set, the spool directory (a real directory: at most one
entry per name), and the current clock value Date.now(). -/
structure PollState where
  redisAvailable : Bool
  processedFiles : List String
  dir : List SpoolFile
  now : Nat
deriving Repr

/-- Observable actions of one poll scan: file reads, file deletions,
broadcast calls, and per-file errors logged. -/
structure ScanLog where
  reads : List String
  deletes : List String
  broadcasts : List Envelope
  errors : List String
deriving DecidableEq, Repr

/-- The empty scan log. -/
def emptyLog : ScanLog :=
  { reads := [], deletes := [], broadcasts := [], errors := [] }

/-- The filename filter of the poll loop (line 182): the name starts
with tournament_ and ends with .json, phrased on the character sequence
of the name (the semantics of the startsWith and endsWith calls of the
source). -/
def matchesSpoolName (n : String) : Bool :=
  "tournament_".data.isPrefixOf n.data && ".json".data.isSuffixOf n.data

/-- Accumulator of the per-file loop of one scan. -/
structure ScanAcc where
  processedFiles : List String
  dir : List SpoolFile
  log : ScanLog

/-- One iteration of the for loop of the poll scan (lines 184 to 207):
skip a filename already processed; otherwise mark it processed, then
inside the try block stat the file, skip and unmark it when younger than
the 50 ms grace window, otherwise read it, parse it (a parse failure is
caught: the error is logged, the file stays marked and is not deleted),
broadcast the envelope and unlink the file. -/
def scanFile (now : Nat) (acc : ScanAcc) (f : SpoolFile) : ScanAcc :=
  if acc.processedFiles.contains f.name then acc
  else
    let acc1 : ScanAcc := { acc with processedFiles := f.name :: acc.processedFiles }
    if now - f.mtimeMs < 50 then
      { acc1 with processedFiles := acc1.processedFiles.erase f.name }
    else
      let acc2 : ScanAcc :=
        { acc1 with log := { acc1.log with reads := acc1.log.reads ++ [f.name] } }
      match f.content with
      | none =>
          { acc2 with log := { acc2.log with errors := acc2.log.errors ++ [f.name] } }
      | some env =>
          { acc2 with
              dir := acc2.dir.filter (fun g => g.name != f.name)
              log := { acc2.log with
                         broadcasts := acc2.log.broadcasts ++ [env]
                         deletes := acc2.log.deletes ++ [f.name] } }

/-- One tick of the setInterval poll loop (lines 177 to 211): when
redisAvailable is true the scan returns at once; otherwise the directory
listing is filtered by name and each file is handled by scanFile. -/
def pollScan (s : PollState) : PollState × ScanLog :=
  if s.redisAvailable then (s, emptyLog)
  else
    let files := s.dir.filter (fun f => matchesSpoolName f.name)
    let r := files.foldl (scanFile s.now)
      { processedFiles := s.processedFiles, dir := s.dir, log := emptyLog }
    ({ s with processedFiles := r.processedFiles, dir := r.dir }, r.log)

/-- Sample envelope used in concrete runs. -/
def envA : Envelope := { event := "match_updated", payload := Payload.raw 7 }

/-- Second sample envelope used in concrete runs. -/
def envB : Envelope := { event := "round_completed", payload := Payload.raw 8 }

/-- Sample WebSocket state with two registered open sockets, the first of
which throws on send. -/
def sampleFailState : SysState :=
  { clients := [0, 1]
    ready := fun _ => wsOPEN
    fails := fun x => x == 0
    inbox := fun _ => [] }

/-- Sample spool file holding a well-formed envelope. -/
def fileGood : SpoolFile :=
  { name := "tournament_1.json", mtimeMs := 100, content := some envA }

/-- Sample spool file whose text fails to parse. -/
def fileBad : SpoolFile :=
  { name := "tournament_2.json", mtimeMs := 100, content := none }

/-- Sample spool file younger than the grace window at clock 1000. -/
def fileYoung : SpoolFile :=
  { name := "tournament_3.json", mtimeMs := 980, content := some envB }

/-! ### Lemmas about one broadcast call -/

/-- One send iteration does not change the registry. -/
theorem sendTo_clients (env : Envelope) (acc : SysState × Nat × Nat) (c : Nat) :
    ((sendTo env acc c).1).clients = acc.1.clients := by
  unfold sendTo
  split <;> (try split) <;> rfl

/-- One send iteration does not change any readyState. -/
theorem sendTo_ready (env : Envelope) (acc : SysState × Nat × Nat) (c : Nat) :
    ((sendTo env acc c).1).ready = acc.1.ready := by
  unfold sendTo
  split <;> (try split) <;> rfl

/-- One send iteration does not change any send-failure condition. -/
theorem sendTo_fails (env : Envelope) (acc : SysState × Nat × Nat) (c : Nat) :
    ((sendTo env acc c).1).fails = acc.1.fails := by
  unfold sendTo
  split <;> (try split) <;> rfl

/-- Effect of one send iteration on the inbox of a socket: the socket d
being served receives the message exactly when it is open and its send
does not throw; every other inbox is unchanged. -/
theorem sendTo_inbox (env : Envelope) (acc : SysState × Nat × Nat) (d c : Nat) :
    ((sendTo env acc d).1).inbox c =
      if c = d ∧ acc.1.ready d = wsOPEN ∧ acc.1.fails d = false then
        acc.1.inbox c ++ [env]
      else acc.1.inbox c := by
  unfold sendTo
  by_cases hr : acc.1.ready d = wsOPEN
  · by_cases hf : acc.1.fails d = true
    · simp [hr, hf]
    · by_cases hcd : c = d
      · subst hcd
        simp [hr, Bool.not_eq_true] at hf ⊢
        simp [hf]
      · simp [hr, hf, hcd]
  · simp [hr]

/-- The registry is unchanged by the whole send loop. -/
theorem foldl_sendTo_clients (env : Envelope) (l : List Nat) :
    ∀ acc : SysState × Nat × Nat, ((l.foldl (sendTo env) acc).1).clients = acc.1.clients := by
  induction l with
  | nil => intro acc; rfl
  | cons d l ih =>
    intro acc
    rw [List.foldl_cons, ih, sendTo_clients]

/-- All readyStates are unchanged by the whole send loop. -/
theorem foldl_sendTo_ready (env : Envelope) (l : List Nat) :
    ∀ acc : SysState × Nat × Nat, ((l.foldl (sendTo env) acc).1).ready = acc.1.ready := by
  induction l with
  | nil => intro acc; rfl
  | cons d l ih =>
    intro acc
    rw [List.foldl_cons, ih, sendTo_ready]

/-- All send-failure conditions are unchanged by the whole send loop. -/
theorem foldl_sendTo_fails (env : Envelope) (l : List Nat) :
    ∀ acc : SysState × Nat × Nat, ((l.foldl (sendTo env) acc).1).fails = acc.1.fails := by
  induction l with
  | nil => intro acc; rfl
  | cons d l ih =>
    intro acc
    rw [List.foldl_cons, ih, sendTo_fails]

/-- Effect of the send loop on the inbox of one socket c: when c is open
and its sends succeed, it receives one copy of the message for each time
it occurs in the iterated list; otherwise its inbox is unchanged. -/
theorem foldl_sendTo_inbox (env : Envelope) (l : List Nat) :
    ∀ (acc : SysState × Nat × Nat) (c : Nat),
    ((l.foldl (sendTo env) acc).1).inbox c =
      if acc.1.ready c = wsOPEN ∧ acc.1.fails c = false then
        acc.1.inbox c ++ List.replicate (l.count c) env
      else acc.1.inbox c := by
  induction l with
  | nil =>
    intro acc c
    split <;> simp
  | cons d l ih =>
    intro acc c
    rw [List.foldl_cons, ih, sendTo_ready, sendTo_fails, sendTo_inbox]
    by_cases hcd : c = d
    · subst hcd
      by_cases hr : acc.1.ready c = wsOPEN
      · by_cases hf : acc.1.fails c = false
        · simp [hr, hf, List.count_cons, List.replicate_succ, List.append_assoc]
        · simp [hr, hf]
      · simp [hr]
    · simp [hcd, List.count_cons]

/-- Effect of one broadcast call on the inbox of socket c. -/
theorem broadcast_inbox (env : Envelope) (s : SysState) (c : Nat) :
    ((broadcast env s).1).inbox c =
      if s.ready c = wsOPEN ∧ s.fails c = false then
        s.inbox c ++ List.replicate (s.clients.count c) env
      else s.inbox c :=
  foldl_sendTo_inbox env s.clients (s, 0, 0) c

/-- A broadcast call leaves the registry unchanged. -/
theorem broadcast_clients (env : Envelope) (s : SysState) :
    ((broadcast env s).1).clients = s.clients :=
  foldl_sendTo_clients env s.clients (s, 0, 0)

/-- A broadcast call leaves all readyStates unchanged. -/
theorem broadcast_ready (env : Envelope) (s : SysState) :
    ((broadcast env s).1).ready = s.ready :=
  foldl_sendTo_ready env s.clients (s, 0, 0)

/-- A broadcast call leaves all send-failure conditions unchanged. -/
theorem broadcast_fails (env : Envelope) (s : SysState) :
    ((broadcast env s).1).fails = s.fails :=
  foldl_sendTo_fails env s.clients (s, 0, 0)

/-! ### Lemmas about runs of the WebSocket side -/

/-- Bridge between the Bool contains of the source Set model and list
membership. -/
theorem contains_iff_mem {α : Type} [BEq α] [LawfulBEq α] (l : List α) (a : α) :
    l.contains a = true ↔ a ∈ l := by
  simp [List.contains]

/-- Appending a fresh element at the end keeps a list without
duplicates. -/
theorem nodup_append_singleton {α : Type} (l : List α) (a : α) (h : l.Nodup)
    (ha : a ∉ l) : (l ++ [a]).Nodup := by
  refine List.nodup_append.mpr ⟨h, List.nodup_singleton a, ?_⟩
  intro x hx hx'
  simp at hx'
  subst hx'
  exact ha hx

/-- Unfolding a run one event at a time. -/
theorem run_cons (s : SysState) (e : SysEvent) (t : List SysEvent) :
    run s (e :: t) = run (step s e) t := rfl

/-- Splitting a run at a concatenation point. -/
theorem run_append (s : SysState) (t1 t2 : List SysEvent) :
    run s (t1 ++ t2) = run (run s t1) t2 := by
  simp [run, List.foldl_append]

/-- The registry never acquires duplicate entries: every handler either
adds an absent socket, erases one, or leaves the registry alone. -/
theorem run_nodup (t : List SysEvent) :
    ∀ s : SysState, s.clients.Nodup → (run s t).clients.Nodup := by
  induction t with
  | nil => intro s h; exact h
  | cons e t ih =>
    intro s h
    rw [run_cons]
    refine ih _ ?_
    cases e with
    | connect c =>
      simp only [step]
      by_cases hm : c ∈ s.clients
      · simp [hm, h]
      · have hn : (s.clients ++ [c]).Nodup := nodup_append_singleton _ _ h hm
        simpa [hm] using hn
    | closeEvt c => exact h.erase c
    | errorEvt c => exact h.erase c
    | sockSet c rs fl => exact h
    | broadcastCall env => simpa [step, broadcast_clients] using h

/-- A run whose events never concern socket c does not register c and
does not deliver anything to c. -/
theorem run_untouched_not_mem (c : Nat) (t : List SysEvent) :
    ∀ s : SysState, untouched c t = true → c ∉ s.clients →
      c ∉ (run s t).clients ∧ (run s t).inbox c = s.inbox c := by
  induction t with
  | nil => intro s _ h; exact ⟨h, rfl⟩
  | cons e t ih =>
    intro s hu hc
    rw [run_cons]
    have hu2 : targets e c = false ∧ untouched c t = true := by
      simpa [untouched, Bool.not_eq_true'] using hu
    obtain ⟨he, hu'⟩ := hu2
    have hstep : c ∉ (step s e).clients ∧ (step s e).inbox c = s.inbox c := by
      cases e with
      | connect d =>
        have hdc : d ≠ c := by simpa [targets] using he
        constructor
        · simp only [step]
          by_cases hm : d ∈ s.clients
          · simpa [hm] using hc
          · have hnot : c ∉ s.clients ++ [d] := by
              intro hmm
              rcases List.mem_append.mp hmm with hm1 | hm2
              · exact hc hm1
              · simp at hm2
                exact hdc hm2.symm
            simpa [hm] using hnot
        · simp [step, Ne.symm hdc]
      | closeEvt d =>
        exact ⟨fun hm => hc (List.mem_of_mem_erase hm), rfl⟩
      | errorEvt d =>
        exact ⟨fun hm => hc (List.mem_of_mem_erase hm), rfl⟩
      | sockSet d rs fl => exact ⟨hc, rfl⟩
      | broadcastCall env =>
        refine ⟨by simpa [step, broadcast_clients] using hc, ?_⟩
        have hcount : s.clients.count c = 0 := List.count_eq_zero.mpr hc
        simp [step, broadcast_inbox, hcount]
    obtain ⟨h1, h2⟩ := hstep
    obtain ⟨h3, h4⟩ := ih (step s e) hu' h1
    exact ⟨h3, by rw [h4, h2]⟩

/-- While a registered socket stays untouched by lifecycle and
environment events, a run delivers to it exactly the broadcast envelopes
of the run, in call order, appended to its inbox. -/
theorem run_open_window (c : Nat) (t : List SysEvent) :
    ∀ s : SysState, untouched c t = true → c ∈ s.clients → s.clients.Nodup →
      s.ready c = wsOPEN → s.fails c = false →
      (run s t).inbox c = s.inbox c ++ broadcastsOf t := by
  induction t with
  | nil => intro s _ _ _ _ _; simp [run, broadcastsOf]
  | cons e t ih =>
    intro s hu hc hnd hr hf
    rw [run_cons]
    have hu2 : targets e c = false ∧ untouched c t = true := by
      simpa [untouched, Bool.not_eq_true'] using hu
    obtain ⟨he, hu'⟩ := hu2
    cases e with
    | connect d =>
      have hdc : d ≠ c := by simpa [targets] using he
      have hmem : c ∈ (step s (SysEvent.connect d)).clients := by
        simp only [step]
        by_cases hm : d ∈ s.clients
        · simpa [hm] using hc
        · have hin : c ∈ s.clients ++ [d] := List.mem_append_left _ hc
          simpa [hm] using hin
      have hnd' : (step s (SysEvent.connect d)).clients.Nodup :=
        run_nodup [SysEvent.connect d] s hnd
      have hr' : (step s (SysEvent.connect d)).ready c = wsOPEN := by
        simpa [step, Ne.symm hdc] using hr
      have hf' : (step s (SysEvent.connect d)).fails c = false := by
        simpa [step, Ne.symm hdc] using hf
      have hbox : (step s (SysEvent.connect d)).inbox c = s.inbox c := by
        simp [step, Ne.symm hdc]
      rw [ih _ hu' hmem hnd' hr' hf', hbox]
      simp [broadcastsOf]
    | closeEvt d =>
      have hdc : d ≠ c := by simpa [targets] using he
      have hmem : c ∈ (step s (SysEvent.closeEvt d)).clients := by
        simpa [step] using (List.mem_erase_of_ne (Ne.symm hdc)).mpr hc
      rw [ih _ hu' hmem (hnd.erase d) hr hf]
      simp [step, broadcastsOf]
    | errorEvt d =>
      have hdc : d ≠ c := by simpa [targets] using he
      have hmem : c ∈ (step s (SysEvent.errorEvt d)).clients := by
        simpa [step] using (List.mem_erase_of_ne (Ne.symm hdc)).mpr hc
      rw [ih _ hu' hmem (hnd.erase d) hr hf]
      simp [step, broadcastsOf]
    | sockSet d rs fl =>
      have hdc : d ≠ c := by simpa [targets] using he
      have hmem : c ∈ (step s (SysEvent.sockSet d rs fl)).clients := hc
      have hnd' : (step s (SysEvent.sockSet d rs fl)).clients.Nodup := hnd
      have hr' : (step s (SysEvent.sockSet d rs fl)).ready c = wsOPEN := by
        simpa [step, Ne.symm hdc] using hr
      have hf' : (step s (SysEvent.sockSet d rs fl)).fails c = false := by
        simpa [step, Ne.symm hdc] using hf
      rw [ih _ hu' hmem hnd' hr' hf']
      simp [step, broadcastsOf]
    | broadcastCall env =>
      have hcount : s.clients.count c = 1 := List.count_eq_one_of_mem hnd hc
      have hmem : c ∈ (step s (SysEvent.broadcastCall env)).clients := by
        simpa [step, broadcast_clients] using hc
      have hnd' : (step s (SysEvent.broadcastCall env)).clients.Nodup := by
        simpa [step, broadcast_clients] using hnd
      have hr' : (step s (SysEvent.broadcastCall env)).ready c = wsOPEN := by
        simpa [step, broadcast_ready] using hr
      have hf' : (step s (SysEvent.broadcastCall env)).fails c = false := by
        simpa [step, broadcast_fails] using hf
      have hbox : (step s (SysEvent.broadcastCall env)).inbox c = s.inbox c ++ [env] := by
        simp [step, broadcast_inbox, hr, hf, hcount]
      rw [ih _ hu' hmem hnd' hr' hf', hbox]
      simp [broadcastsOf]

/-- A run only ever appends to the inbox of a socket. -/
theorem run_inbox_extend (c : Nat) (t : List SysEvent) :
    ∀ s : SysState, ∃ l : List Envelope, (run s t).inbox c = s.inbox c ++ l := by
  induction t with
  | nil => intro s; exact ⟨[], by simp [run]⟩
  | cons e t ih =>
    intro s
    rw [run_cons]
    obtain ⟨l, hl⟩ := ih (step s e)
    have hstep : ∃ l0 : List Envelope, (step s e).inbox c = s.inbox c ++ l0 := by
      cases e with
      | connect d =>
        by_cases hcd : c = d
        · subst hcd; exact ⟨[connectedEnvelope], by simp [step]⟩
        · exact ⟨[], by simp [step, hcd]⟩
      | closeEvt d => exact ⟨[], by simp [step]⟩
      | errorEvt d => exact ⟨[], by simp [step]⟩
      | sockSet d rs fl => exact ⟨[], by simp [step]⟩
      | broadcastCall env =>
        by_cases h : s.ready c = wsOPEN ∧ s.fails c = false
        · exact ⟨List.replicate (s.clients.count c) env, by simp [step, broadcast_inbox, h]⟩
        · exact ⟨[], by simp [step, broadcast_inbox, h]⟩
    obtain ⟨l0, h0⟩ := hstep
    exact ⟨l0 ++ l, by rw [hl, h0, List.append_assoc]⟩

/-! ### Claim theorems about the broadcast engine and the registry -/

/-- C1: for every sequence of broadcast calls and every client whose
socket stays open from its accepted connection to the end of the run,
the client receives exactly the envelopes of the broadcast calls made
while it was connected, in call order (preceded only by the greeting
envelope that the connection handler itself sends, which is not a
broadcast). -/
theorem open_client_receives_exactly_in_order (t1 t2 : List SysEvent) (c : Nat)
    (h1 : untouched c t1 = true) (h2 : untouched c t2 = true) :
    (runInit (t1 ++ SysEvent.connect c :: t2)).inbox c =
      connectedEnvelope :: broadcastsOf t2 := by
  have hsplit : runInit (t1 ++ SysEvent.connect c :: t2)
      = run (step (run initState t1) (SysEvent.connect c)) t2 := by
    rw [runInit, run_append, run_cons]
  obtain ⟨hnotmem, hbox⟩ :=
    run_untouched_not_mem c t1 initState h1 (by simp [initState])
  set s1 := run initState t1 with hs1
  have hnd1 : s1.clients.Nodup := run_nodup t1 initState (by simp [initState])
  have hstep_mem : c ∈ (step s1 (SysEvent.connect c)).clients := by
    simp only [step]
    by_cases hm : c ∈ s1.clients
    · exact absurd hm hnotmem
    · have hin : c ∈ s1.clients ++ [c] := by simp
      simpa [hm] using hin
  have hstep_nd : (step s1 (SysEvent.connect c)).clients.Nodup :=
    run_nodup [SysEvent.connect c] s1 hnd1
  have hstep_ready : (step s1 (SysEvent.connect c)).ready c = wsOPEN := by
    simp [step]
  have hstep_fails : (step s1 (SysEvent.connect c)).fails c = false := by
    simp [step]
  have hstep_box : (step s1 (SysEvent.connect c)).inbox c = [connectedEnvelope] := by
    simp [step, hbox, initState]
  rw [hsplit,
    run_open_window c t2 _ h2 hstep_mem hstep_nd hstep_ready hstep_fails, hstep_box]
  simp

/-- Witness for C1 at a concrete run: one broadcast before the client
connects, a second client connecting and two broadcasts afterwards. -/
theorem open_client_receives_exactly_in_order_witness :
    untouched 0 [SysEvent.broadcastCall envA] = true
    ∧ untouched 0 [SysEvent.broadcastCall envB, SysEvent.connect 5,
        SysEvent.broadcastCall envA] = true
    ∧ (runInit ([SysEvent.broadcastCall envA] ++ SysEvent.connect 0 ::
        [SysEvent.broadcastCall envB, SysEvent.connect 5, SysEvent.broadcastCall envA])).inbox 0 =
        connectedEnvelope :: broadcastsOf [SysEvent.broadcastCall envB, SysEvent.connect 5,
          SysEvent.broadcastCall envA] :=
  ⟨by decide, by decide,
    open_client_receives_exactly_in_order [SysEvent.broadcastCall envA]
      [SysEvent.broadcastCall envB, SysEvent.connect 5, SysEvent.broadcastCall envA] 0
      (by decide) (by decide)⟩

/-- C10: a broadcast call never mutates the connection registry, whatever
the socket conditions are: the registered set after the call is the set
before it. -/
theorem broadcast_never_mutates_registry (env : Envelope) (s : SysState) :
    ((broadcast env s).1).clients = s.clients :=
  broadcast_clients env s

/-- C4: a send failure on one connection is confined to its own loop
iteration: every other registered connection that is open and whose send
succeeds still receives the envelope of this broadcast call. -/
theorem send_failure_does_not_abort (env : Envelope) (s : SysState) (c d : Nat)
    (hnd : s.clients.Nodup)
    (hc : c ∈ s.clients) (hcr : s.ready c = wsOPEN) (hcf : s.fails c = true)
    (hd : d ∈ s.clients) (hdr : s.ready d = wsOPEN) (hdf : s.fails d = false) :
    ((broadcast env s).1).inbox d = s.inbox d ++ [env] := by
  rw [broadcast_inbox]
  have hcount : s.clients.count d = 1 := List.count_eq_one_of_mem hnd hd
  simp [hdr, hdf, hcount]

/-- Witness for C4: two open sockets, the first send throws, the second
socket still receives the envelope. -/
theorem send_failure_does_not_abort_witness :
    sampleFailState.clients.Nodup
    ∧ 0 ∈ sampleFailState.clients ∧ sampleFailState.fails 0 = true
    ∧ 1 ∈ sampleFailState.clients ∧ sampleFailState.fails 1 = false
    ∧ ((broadcast envA sampleFailState).1).inbox 1 = sampleFailState.inbox 1 ++ [envA] :=
  ⟨by decide, by decide, by decide, by decide, by decide,
    send_failure_does_not_abort envA sampleFailState 0 1 (by decide) (by decide)
      (by decide) (by decide) (by decide) (by decide) (by decide)⟩

/-- Counterexample to C3: a registered open socket whose send throws
during a broadcast is still in the registry after the call (the catch
block only counts the failure), and once its sends succeed again it does
receive the envelope of a later broadcast call. -/
theorem failed_send_removal_cex :
    (runInit [SysEvent.connect 0, SysEvent.sockSet 0 wsOPEN true,
      SysEvent.broadcastCall envA]).clients = [0]
    ∧ (runInit [SysEvent.connect 0, SysEvent.sockSet 0 wsOPEN true,
        SysEvent.broadcastCall envA, SysEvent.sockSet 0 wsOPEN false,
        SysEvent.broadcastCall envB]).inbox 0 = [connectedEnvelope, envB] := by
  decide

/-- C3 as amended: a connection whose send attempt fails is not removed
by the broadcast operation: the failure is caught and counted, the
connection stays in the registry (membership changes only through the
close and error lifecycle handlers), it does not receive the envelope of
the failing call, and a later broadcast call delivers to it again once
its sends succeed. -/
theorem failed_send_stays_registered (env env2 : Envelope) (s : SysState) (c : Nat)
    (hnd : s.clients.Nodup) (hc : c ∈ s.clients) (hr : s.ready c = wsOPEN)
    (hf : s.fails c = true) :
    c ∈ ((broadcast env s).1).clients
    ∧ ((broadcast env s).1).inbox c = s.inbox c
    ∧ (run s [SysEvent.broadcastCall env, SysEvent.sockSet c wsOPEN false,
        SysEvent.broadcastCall env2]).inbox c = s.inbox c ++ [env2] := by
  have h1 : ((broadcast env s).1).inbox c = s.inbox c := by
    rw [broadcast_inbox]
    simp [hf]
  refine ⟨by rw [broadcast_clients]; exact hc, h1, ?_⟩
  show (step (step (step s (SysEvent.broadcastCall env))
      (SysEvent.sockSet c wsOPEN false)) (SysEvent.broadcastCall env2)).inbox c
      = s.inbox c ++ [env2]
  set s1 := step s (SysEvent.broadcastCall env) with hs1
  have h1c : s1.clients = s.clients := broadcast_clients env s
  have h1box : s1.inbox c = s.inbox c := h1
  set s2 := step s1 (SysEvent.sockSet c wsOPEN false) with hs2
  have h2r : s2.ready c = wsOPEN := by simp [hs2, step]
  have h2f : s2.fails c = false := by simp [hs2, step]
  have h2c : s2.clients = s.clients := by simp [hs2, step, h1c]
  have h2box : s2.inbox c = s.inbox c := by simp [hs2, step, h1box]
  show (step s2 (SysEvent.broadcastCall env2)).inbox c = s.inbox c ++ [env2]
  have hcount : s2.clients.count c = 1 := by
    rw [h2c]
    exact List.count_eq_one_of_mem hnd hc
  simp [step, broadcast_inbox, h2r, h2f, h2box, hcount]

/-- Witness for the amended C3 at a concrete state. -/
theorem failed_send_stays_registered_witness :
    sampleFailState.clients.Nodup ∧ 0 ∈ sampleFailState.clients
    ∧ sampleFailState.ready 0 = wsOPEN ∧ sampleFailState.fails 0 = true
    ∧ (0 ∈ ((broadcast envA sampleFailState).1).clients
      ∧ ((broadcast envA sampleFailState).1).inbox 0 = sampleFailState.inbox 0
      ∧ (run sampleFailState [SysEvent.broadcastCall envA, SysEvent.sockSet 0 wsOPEN false,
          SysEvent.broadcastCall envB]).inbox 0 = sampleFailState.inbox 0 ++ [envB]) :=
  ⟨by decide, by decide, by decide, by decide,
    failed_send_stays_registered envA envB sampleFailState 0 (by decide) (by decide)
      (by decide) (by decide)⟩

/-- C8: for every client whose upgrade handshake succeeds, the first
message delivered to it is the connected greeting envelope, before any
other envelope. -/
theorem first_message_is_connected (t1 t2 : List SysEvent) (c : Nat)
    (h1 : untouched c t1 = true) :
    ((runInit (t1 ++ SysEvent.connect c :: t2)).inbox c).head? = some connectedEnvelope := by
  rw [runInit, run_append, run_cons]
  obtain ⟨hnotmem, hbox⟩ :=
    run_untouched_not_mem c t1 initState h1 (by simp [initState])
  set s1 := run initState t1 with hs1
  have hstep_box : (step s1 (SysEvent.connect c)).inbox c = [connectedEnvelope] := by
    simp [step, hbox, initState]
  obtain ⟨l, hl⟩ := run_inbox_extend c t2 (step s1 (SysEvent.connect c))
  rw [hl, hstep_box]
  rfl

/-- Witness for C8 at a concrete run. -/
theorem first_message_is_connected_witness :
    untouched 0 [SysEvent.connect 1, SysEvent.broadcastCall envA] = true
    ∧ ((runInit ([SysEvent.connect 1, SysEvent.broadcastCall envA] ++ SysEvent.connect 0 ::
        [SysEvent.broadcastCall envB])).inbox 0).head? = some connectedEnvelope :=
  ⟨by decide,
    first_message_is_connected [SysEvent.connect 1, SysEvent.broadcastCall envA]
      [SysEvent.broadcastCall envB] 0 (by decide)⟩

/-! ### Lemmas about one poll scan -/

/-- A scan step never removes a name that was already in the processed
set when the step started. -/
theorem scanFile_processed_mono (now : Nat) (acc : ScanAcc) (f : SpoolFile) (x : String)
    (hx : x ∈ acc.processedFiles) : x ∈ (scanFile now acc f).processedFiles := by
  by_cases hskip : f.name ∈ acc.processedFiles
  · simpa [scanFile, hskip] using hx
  · by_cases hgrace : now - f.mtimeMs < 50
    · simpa [scanFile, hskip, hgrace, List.erase_cons_head] using hx
    · cases hcont : f.content with
      | none =>
        simp [scanFile, hskip, hgrace, hcont]
        exact Or.inr hx
      | some env =>
        simp [scanFile, hskip, hgrace, hcont]
        exact Or.inr hx

/-- A scan step adds no name other than the name of its file. -/
theorem scanFile_not_processed (now : Nat) (acc : ScanAcc) (f : SpoolFile) (n : String)
    (hn : n ∉ acc.processedFiles) (hne : n ≠ f.name) :
    n ∉ (scanFile now acc f).processedFiles := by
  by_cases hskip : f.name ∈ acc.processedFiles
  · simpa [scanFile, hskip] using hn
  · by_cases hgrace : now - f.mtimeMs < 50
    · simpa [scanFile, hskip, hgrace, List.erase_cons_head] using hn
    · cases hcont : f.content with
      | none => simp [scanFile, hskip, hgrace, hcont, hne, hn]
      | some env => simp [scanFile, hskip, hgrace, hcont, hne, hn]

/-- A scan step only shrinks the directory. -/
theorem scanFile_dir_sub (now : Nat) (acc : ScanAcc) (f : SpoolFile) (g : SpoolFile)
    (hg : g ∈ (scanFile now acc f).dir) : g ∈ acc.dir := by
  by_cases hskip : f.name ∈ acc.processedFiles
  · simpa [scanFile, hskip] using hg
  · by_cases hgrace : now - f.mtimeMs < 50
    · simpa [scanFile, hskip, hgrace] using hg
    · cases hcont : f.content with
      | none => simpa [scanFile, hskip, hgrace, hcont] using hg
      | some env =>
        simp [scanFile, hskip, hgrace, hcont, List.mem_filter] at hg
        exact hg.1

/-- A scan step keeps every directory entry whose name differs from the
name of its file. -/
theorem scanFile_dir_keep (now : Nat) (acc : ScanAcc) (f : SpoolFile) (g : SpoolFile)
    (hg : g ∈ acc.dir) (hne : g.name ≠ f.name) : g ∈ (scanFile now acc f).dir := by
  by_cases hskip : f.name ∈ acc.processedFiles
  · simpa [scanFile, hskip] using hg
  · by_cases hgrace : now - f.mtimeMs < 50
    · simpa [scanFile, hskip, hgrace] using hg
    · cases hcont : f.content with
      | none => simpa [scanFile, hskip, hgrace, hcont] using hg
      | some env =>
        simp [scanFile, hskip, hgrace, hcont, List.mem_filter]
        exact ⟨hg, hne⟩

/-- A scan step records no read of a name that differs from the name of
its file. -/
theorem scanFile_reads_keep (now : Nat) (acc : ScanAcc) (f : SpoolFile) (n : String)
    (hn : n ∉ acc.log.reads) (hne : n ≠ f.name) :
    n ∉ (scanFile now acc f).log.reads := by
  by_cases hskip : f.name ∈ acc.processedFiles
  · simpa [scanFile, hskip] using hn
  · by_cases hgrace : now - f.mtimeMs < 50
    · simpa [scanFile, hskip, hgrace] using hn
    · cases hcont : f.content with
      | none => simp [scanFile, hskip, hgrace, hcont, hne, hn]
      | some env => simp [scanFile, hskip, hgrace, hcont, hne, hn]

/-- A scan step records no deletion of a name that differs from the name
of its file. -/
theorem scanFile_deletes_keep (now : Nat) (acc : ScanAcc) (f : SpoolFile) (n : String)
    (hn : n ∉ acc.log.deletes) (hne : n ≠ f.name) :
    n ∉ (scanFile now acc f).log.deletes := by
  by_cases hskip : f.name ∈ acc.processedFiles
  · simpa [scanFile, hskip] using hn
  · by_cases hgrace : now - f.mtimeMs < 50
    · simpa [scanFile, hskip, hgrace] using hn
    · cases hcont : f.content with
      | none => simpa [scanFile, hskip, hgrace, hcont] using hn
      | some env => simp [scanFile, hskip, hgrace, hcont, hne, hn]

/-- A scan step keeps every logged error. -/
theorem scanFile_errors_mono (now : Nat) (acc : ScanAcc) (f : SpoolFile) (x : String)
    (hx : x ∈ acc.log.errors) : x ∈ (scanFile now acc f).log.errors := by
  by_cases hskip : f.name ∈ acc.processedFiles
  · simpa [scanFile, hskip] using hx
  · by_cases hgrace : now - f.mtimeMs < 50
    · simpa [scanFile, hskip, hgrace] using hx
    · cases hcont : f.content with
      | none => simp [scanFile, hskip, hgrace, hcont, hx]
      | some env => simpa [scanFile, hskip, hgrace, hcont] using hx

/-- A scan step keeps every logged broadcast. -/
theorem scanFile_broadcasts_mono (now : Nat) (acc : ScanAcc) (f : SpoolFile) (e : Envelope)
    (hx : e ∈ acc.log.broadcasts) : e ∈ (scanFile now acc f).log.broadcasts := by
  by_cases hskip : f.name ∈ acc.processedFiles
  · simpa [scanFile, hskip] using hx
  · by_cases hgrace : now - f.mtimeMs < 50
    · simpa [scanFile, hskip, hgrace] using hx
    · cases hcont : f.content with
      | none => simpa [scanFile, hskip, hgrace, hcont] using hx
      | some env => simp [scanFile, hskip, hgrace, hcont, hx]

/-- A scan step keeps every logged deletion. -/
theorem scanFile_deletes_mono (now : Nat) (acc : ScanAcc) (f : SpoolFile) (x : String)
    (hx : x ∈ acc.log.deletes) : x ∈ (scanFile now acc f).log.deletes := by
  by_cases hskip : f.name ∈ acc.processedFiles
  · simpa [scanFile, hskip] using hx
  · by_cases hgrace : now - f.mtimeMs < 50
    · simpa [scanFile, hskip, hgrace] using hx
    · cases hcont : f.content with
      | none => simpa [scanFile, hskip, hgrace, hcont] using hx
      | some env => simp [scanFile, hskip, hgrace, hcont, hx]

/-- Names already in the processed set survive a whole scan loop. -/
theorem scan_processed_mono (now : Nat) (l : List SpoolFile) :
    ∀ (acc : ScanAcc) (x : String), x ∈ acc.processedFiles →
      x ∈ (l.foldl (scanFile now) acc).processedFiles := by
  induction l with
  | nil => intro acc x hx; exact hx
  | cons f l ih =>
    intro acc x hx
    exact ih _ x (scanFile_processed_mono now acc f x hx)

/-- The whole scan loop only shrinks the directory. -/
theorem scan_dir_sub (now : Nat) (l : List SpoolFile) :
    ∀ (acc : ScanAcc) (g : SpoolFile), g ∈ (l.foldl (scanFile now) acc).dir →
      g ∈ acc.dir := by
  induction l with
  | nil => intro acc g hg; exact hg
  | cons f l ih =>
    intro acc g hg
    exact scanFile_dir_sub now acc f g (ih _ g hg)

/-- A name that is in the processed set when a scan loop starts is
skipped by every iteration: it is never read during the loop and stays
in the processed set. -/
theorem scan_skip_no_read (now : Nat) (l : List SpoolFile) :
    ∀ (acc : ScanAcc) (n : String), n ∈ acc.processedFiles → n ∉ acc.log.reads →
      n ∈ (l.foldl (scanFile now) acc).processedFiles
        ∧ n ∉ (l.foldl (scanFile now) acc).log.reads := by
  induction l with
  | nil => intro acc n h1 h2; exact ⟨h1, h2⟩
  | cons f l ih =>
    intro acc n h1 h2
    by_cases hfn : n = f.name
    · subst hfn
      have hstep : scanFile now acc f = acc := by
        simp [scanFile, h1]
      rw [List.foldl_cons, hstep]
      exact ih acc f.name h1 h2
    · exact ih _ n (scanFile_processed_mono now acc f n h1)
        (scanFile_reads_keep now acc f n h2 hfn)

/-- Logged errors survive a whole scan loop. -/
theorem scan_errors_mono (now : Nat) (l : List SpoolFile) :
    ∀ (acc : ScanAcc) (x : String), x ∈ acc.log.errors →
      x ∈ (l.foldl (scanFile now) acc).log.errors := by
  induction l with
  | nil => intro acc x hx; exact hx
  | cons f l ih =>
    intro acc x hx
    exact ih _ x (scanFile_errors_mono now acc f x hx)

/-- Logged broadcasts survive a whole scan loop. -/
theorem scan_broadcasts_mono (now : Nat) (l : List SpoolFile) :
    ∀ (acc : ScanAcc) (e : Envelope), e ∈ acc.log.broadcasts →
      e ∈ (l.foldl (scanFile now) acc).log.broadcasts := by
  induction l with
  | nil => intro acc e he; exact he
  | cons f l ih =>
    intro acc e he
    exact ih _ e (scanFile_broadcasts_mono now acc f e he)

/-- Logged deletions survive a whole scan loop. -/
theorem scan_deletes_mono (now : Nat) (l : List SpoolFile) :
    ∀ (acc : ScanAcc) (x : String), x ∈ acc.log.deletes →
      x ∈ (l.foldl (scanFile now) acc).log.deletes := by
  induction l with
  | nil => intro acc x hx; exact hx
  | cons f l ih =>
    intro acc x hx
    exact ih _ x (scanFile_deletes_mono now acc f x hx)

/-- A directory entry whose name is handled by no iteration of the loop
survives the whole loop. -/
theorem scan_dir_keep (now : Nat) (l : List SpoolFile) :
    ∀ (acc : ScanAcc) (g : SpoolFile), g ∈ acc.dir → g.name ∉ l.map SpoolFile.name →
      g ∈ (l.foldl (scanFile now) acc).dir := by
  induction l with
  | nil => intro acc g hg _; exact hg
  | cons f l ih =>
    intro acc g hg hnot
    have hne : g.name ≠ f.name := fun he => hnot (by rw [he]; exact List.mem_cons_self _ _)
    exact ih _ g (scanFile_dir_keep now acc f g hg hne)
      (fun hx => hnot (List.mem_cons_of_mem _ hx))

/-- A name absent from the processed set and handled by no iteration of
the loop is still absent after the whole loop. -/
theorem scan_not_processed (now : Nat) (l : List SpoolFile) :
    ∀ (acc : ScanAcc) (n : String), n ∉ acc.processedFiles → n ∉ l.map SpoolFile.name →
      n ∉ (l.foldl (scanFile now) acc).processedFiles := by
  induction l with
  | nil => intro acc n hn _; exact hn
  | cons f l ih =>
    intro acc n hn hnot
    have hne : n ≠ f.name := fun he => hnot (by rw [he]; exact List.mem_cons_self _ _)
    exact ih _ n (scanFile_not_processed now acc f n hn hne)
      (fun hx => hnot (List.mem_cons_of_mem _ hx))

/-- A name handled by no iteration of the loop is never logged as read
by the loop. -/
theorem scan_reads_keep (now : Nat) (l : List SpoolFile) :
    ∀ (acc : ScanAcc) (n : String), n ∉ acc.log.reads → n ∉ l.map SpoolFile.name →
      n ∉ (l.foldl (scanFile now) acc).log.reads := by
  induction l with
  | nil => intro acc n hn _; exact hn
  | cons f l ih =>
    intro acc n hn hnot
    have hne : n ≠ f.name := fun he => hnot (by rw [he]; exact List.mem_cons_self _ _)
    exact ih _ n (scanFile_reads_keep now acc f n hn hne)
      (fun hx => hnot (List.mem_cons_of_mem _ hx))

/-- A name handled by no iteration of the loop is never logged as
deleted by the loop. -/
theorem scan_deletes_keep (now : Nat) (l : List SpoolFile) :
    ∀ (acc : ScanAcc) (n : String), n ∉ acc.log.deletes → n ∉ l.map SpoolFile.name →
      n ∉ (l.foldl (scanFile now) acc).log.deletes := by
  induction l with
  | nil => intro acc n hn _; exact hn
  | cons f l ih =>
    intro acc n hn hnot
    have hne : n ≠ f.name := fun he => hnot (by rw [he]; exact List.mem_cons_self _ _)
    exact ih _ n (scanFile_deletes_keep now acc f n hn hne)
      (fun hx => hnot (List.mem_cons_of_mem _ hx))

/-- A spool file that fails to decode: after the loop its name is in the
processed set, it is still in the directory, and its error was logged. -/
theorem scan_badfile (now : Nat) (l : List SpoolFile) :
    ∀ (acc : ScanAcc) (f : SpoolFile), (l.map SpoolFile.name).Nodup → f ∈ l →
      ¬(now - f.mtimeMs < 50) → f.content = none →
      f.name ∉ acc.processedFiles → f ∈ acc.dir →
      f.name ∈ (l.foldl (scanFile now) acc).processedFiles
        ∧ f ∈ (l.foldl (scanFile now) acc).dir
        ∧ f.name ∈ (l.foldl (scanFile now) acc).log.errors := by
  induction l with
  | nil => intro acc f _ hf; exact absurd hf (List.not_mem_nil f)
  | cons h l ih =>
    intro acc f hnd hf hage hcont hnew hdir
    have hnd' : (l.map SpoolFile.name).Nodup := (List.nodup_cons.mp hnd).2
    have hhead : h.name ∉ l.map SpoolFile.name := (List.nodup_cons.mp hnd).1
    rcases List.mem_cons.mp hf with hfh | hfl
    · subst hfh
      have hstep : (scanFile now acc f).processedFiles = f.name :: acc.processedFiles
          ∧ (scanFile now acc f).dir = acc.dir
          ∧ (scanFile now acc f).log.errors = acc.log.errors ++ [f.name] := by
        simp [scanFile, hnew, hage, hcont]
      rw [List.foldl_cons]
      refine ⟨?_, ?_, ?_⟩
      · exact scan_processed_mono now l _ f.name
          (by rw [hstep.1]; exact List.mem_cons_self _ _)
      · exact scan_dir_keep now l _ f (by rw [hstep.2.1]; exact hdir) hhead
      · exact scan_errors_mono now l _ f.name (by rw [hstep.2.2]; simp)
    · have hne : f.name ≠ h.name := by
        intro he
        exact hhead (by rw [← he]; exact List.mem_map_of_mem SpoolFile.name hfl)
      exact ih _ f hnd' hfl hage hcont
        (scanFile_not_processed now acc h f.name hnew hne)
        (scanFile_dir_keep now acc h f hdir hne)

/-- A spool file younger than the grace window: the loop does not keep it
marked, does not read it, does not delete it, and it stays in the
directory. -/
theorem scan_gracefile (now : Nat) (l : List SpoolFile) :
    ∀ (acc : ScanAcc) (f : SpoolFile), (l.map SpoolFile.name).Nodup → f ∈ l →
      now - f.mtimeMs < 50 →
      f.name ∉ acc.processedFiles → f ∈ acc.dir →
      f.name ∉ acc.log.reads → f.name ∉ acc.log.deletes →
      f.name ∉ (l.foldl (scanFile now) acc).processedFiles
        ∧ f ∈ (l.foldl (scanFile now) acc).dir
        ∧ f.name ∉ (l.foldl (scanFile now) acc).log.reads
        ∧ f.name ∉ (l.foldl (scanFile now) acc).log.deletes := by
  induction l with
  | nil => intro acc f _ hf; exact absurd hf (List.not_mem_nil f)
  | cons h l ih =>
    intro acc f hnd hf hyoung hnew hdir hreads hdels
    have hnd' : (l.map SpoolFile.name).Nodup := (List.nodup_cons.mp hnd).2
    have hhead : h.name ∉ l.map SpoolFile.name := (List.nodup_cons.mp hnd).1
    rcases List.mem_cons.mp hf with hfh | hfl
    · subst hfh
      have hstep : scanFile now acc f = acc := by
        simp [scanFile, hnew, hyoung, List.erase_cons_head]
      rw [List.foldl_cons, hstep]
      refine ⟨?_, ?_, ?_, ?_⟩
      · exact scan_not_processed now l acc f.name hnew hhead
      · exact scan_dir_keep now l acc f hdir hhead
      · exact scan_reads_keep now l acc f.name hreads hhead
      · exact scan_deletes_keep now l acc f.name hdels hhead
    · have hne : f.name ≠ h.name := by
        intro he
        exact hhead (by rw [← he]; exact List.mem_map_of_mem SpoolFile.name hfl)
      exact ih _ f hnd' hfl hyoung
        (scanFile_not_processed now acc h f.name hnew hne)
        (scanFile_dir_keep now acc h f hdir hne)
        (scanFile_reads_keep now acc h f.name hreads hne)
        (scanFile_deletes_keep now acc h f.name hdels hne)

/-- A spool file that is aged past the grace window, decodable and not
yet processed is consumed by the loop: its envelope is broadcast, its
deletion is logged, it leaves the directory, and its name is marked
processed. -/
theorem scan_goodfile (now : Nat) (l : List SpoolFile) :
    ∀ (acc : ScanAcc) (f : SpoolFile) (env : Envelope),
      (l.map SpoolFile.name).Nodup → f ∈ l →
      ¬(now - f.mtimeMs < 50) → f.content = some env →
      f.name ∉ acc.processedFiles →
      env ∈ (l.foldl (scanFile now) acc).log.broadcasts
        ∧ f.name ∈ (l.foldl (scanFile now) acc).log.deletes
        ∧ f ∉ (l.foldl (scanFile now) acc).dir
        ∧ f.name ∈ (l.foldl (scanFile now) acc).processedFiles := by
  induction l with
  | nil => intro acc f env _ hf; exact absurd hf (List.not_mem_nil f)
  | cons h l ih =>
    intro acc f env hnd hf hage hcont hnew
    have hnd' : (l.map SpoolFile.name).Nodup := (List.nodup_cons.mp hnd).2
    have hhead : h.name ∉ l.map SpoolFile.name := (List.nodup_cons.mp hnd).1
    rcases List.mem_cons.mp hf with hfh | hfl
    · subst hfh
      have hstep : (scanFile now acc f).processedFiles = f.name :: acc.processedFiles
          ∧ (scanFile now acc f).dir = acc.dir.filter (fun g => g.name != f.name)
          ∧ (scanFile now acc f).log.broadcasts = acc.log.broadcasts ++ [env]
          ∧ (scanFile now acc f).log.deletes = acc.log.deletes ++ [f.name] := by
        simp [scanFile, hnew, hage, hcont]
      rw [List.foldl_cons]
      refine ⟨?_, ?_, ?_, ?_⟩
      · exact scan_broadcasts_mono now l _ env (by rw [hstep.2.2.1]; simp)
      · exact scan_deletes_mono now l _ f.name (by rw [hstep.2.2.2]; simp)
      · intro hmem
        have hsub : f ∈ (scanFile now acc f).dir := scan_dir_sub now l _ f hmem
        rw [hstep.2.1] at hsub
        simp [List.mem_filter] at hsub
      · exact scan_processed_mono now l _ f.name
          (by rw [hstep.1]; exact List.mem_cons_self _ _)
    · have hne : f.name ≠ h.name := by
        intro he
        exact hhead (by rw [← he]; exact List.mem_map_of_mem SpoolFile.name hfl)
      exact ih _ f env hnd' hfl hage hcont
        (scanFile_not_processed now acc h f.name hnew hne)

/-- Shape of a poll scan when the availability flag is down. -/
theorem pollScan_eq (s : PollState) (h : s.redisAvailable = false) :
    pollScan s =
      ({ s with
          processedFiles := ((s.dir.filter (fun g => matchesSpoolName g.name)).foldl
            (scanFile s.now)
            { processedFiles := s.processedFiles, dir := s.dir, log := emptyLog }).processedFiles
          dir := ((s.dir.filter (fun g => matchesSpoolName g.name)).foldl (scanFile s.now)
            { processedFiles := s.processedFiles, dir := s.dir, log := emptyLog }).dir },
        ((s.dir.filter (fun g => matchesSpoolName g.name)).foldl (scanFile s.now)
          { processedFiles := s.processedFiles, dir := s.dir, log := emptyLog }).log) := by
  simp [pollScan, h]

/-! ### Claim theorems about the fallback poller and the availability flag -/

/-- C2: while redisAvailable is true, a poll scan performs no spool-file
read and no spool-file deletion, whatever files the directory holds. -/
theorem redis_available_scan_noop (s : PollState) (h : s.redisAvailable = true) :
    (pollScan s).2.reads = [] ∧ (pollScan s).2.deletes = [] := by
  simp [pollScan, h, emptyLog]

/-- Witness for C2: the flag is up and a consumable file is present, yet
the scan reads and deletes nothing. -/
theorem redis_available_scan_noop_witness :
    (PollState.mk true [] [fileGood] 1000).redisAvailable = true
    ∧ ((pollScan (PollState.mk true [] [fileGood] 1000)).2.reads = []
      ∧ (pollScan (PollState.mk true [] [fileGood] 1000)).2.deletes = []) :=
  ⟨rfl, redis_available_scan_noop (PollState.mk true [] [fileGood] 1000) rfl⟩

/-- C9: the processed-file set grows monotonically: every name in the set
before a poll step is still in it after the step. -/
theorem processed_set_monotone (s : PollState) (x : String)
    (hx : x ∈ s.processedFiles) : x ∈ (pollScan s).1.processedFiles := by
  by_cases h : s.redisAvailable = true
  · simpa [pollScan, h] using hx
  · have hfl : s.redisAvailable = false := by
      revert h; cases s.redisAvailable <;> simp
    rw [pollScan_eq s hfl]
    exact scan_processed_mono s.now _ _ x hx

/-- Witness for C9 at a concrete scan that also consumes a file. -/
theorem processed_set_monotone_witness :
    "tournament_0.json" ∈
      (PollState.mk false ["tournament_0.json"] [fileGood] 1000).processedFiles
    ∧ "tournament_0.json" ∈
      (pollScan (PollState.mk false ["tournament_0.json"] [fileGood] 1000)).1.processedFiles :=
  ⟨by decide,
    processed_set_monotone (PollState.mk false ["tournament_0.json"] [fileGood] 1000)
      "tournament_0.json" (by decide)⟩

/-- C5: a spool file whose contents fail to decode is logged as an error,
the scan continues and consumes the other eligible files, the file stays
marked in the processed set (and stays on disk), and a scan that starts
with the name marked never reads that name again. -/
theorem undecodable_file_dropped_once (s : PollState) (f : SpoolFile)
    (hflag : s.redisAvailable = false)
    (hnd : (s.dir.map SpoolFile.name).Nodup)
    (hf : f ∈ s.dir) (hmatch : matchesSpoolName f.name = true)
    (hnew : f.name ∉ s.processedFiles)
    (hage : ¬(s.now - f.mtimeMs < 50))
    (hbad : f.content = none) :
    (f.name ∈ (pollScan s).1.processedFiles ∧ f ∈ (pollScan s).1.dir
      ∧ f.name ∈ (pollScan s).2.errors)
    ∧ (∀ (g : SpoolFile) (env : Envelope), g ∈ s.dir → matchesSpoolName g.name = true →
        g.name ∉ s.processedFiles → ¬(s.now - g.mtimeMs < 50) → g.content = some env →
        env ∈ (pollScan s).2.broadcasts)
    ∧ (∀ s2 : PollState, f.name ∈ s2.processedFiles → f.name ∉ (pollScan s2).2.reads) := by
  have hfilter_nd :
      ((s.dir.filter (fun g => matchesSpoolName g.name)).map SpoolFile.name).Nodup :=
    List.Nodup.sublist (List.Sublist.map SpoolFile.name (List.filter_sublist s.dir)) hnd
  have hfmem : f ∈ s.dir.filter (fun g => matchesSpoolName g.name) :=
    List.mem_filter.mpr ⟨hf, hmatch⟩
  refine ⟨?_, ?_, ?_⟩
  · rw [pollScan_eq s hflag]
    exact scan_badfile s.now _ _ f hfilter_nd hfmem hage hbad hnew hf
  · intro g env hg hgm hgnew hgage hgcont
    rw [pollScan_eq s hflag]
    exact (scan_goodfile s.now _ _ g env hfilter_nd (List.mem_filter.mpr ⟨hg, hgm⟩)
      hgage hgcont hgnew).1
  · intro s2 hmem
    by_cases h2 : s2.redisAvailable = true
    · simp [pollScan, h2, emptyLog]
    · have h2f : s2.redisAvailable = false := by
        revert h2; cases s2.redisAvailable <;> simp
      rw [pollScan_eq s2 h2f]
      exact (scan_skip_no_read s2.now _ _ f.name hmem (List.not_mem_nil _)).2

/-- Witness for C5: a malformed spool file next to a consumable one. -/
theorem undecodable_file_dropped_once_witness :
    ((PollState.mk false [] [fileBad, fileGood] 1000).dir.map SpoolFile.name).Nodup
    ∧ fileBad ∈ (PollState.mk false [] [fileBad, fileGood] 1000).dir
    ∧ matchesSpoolName fileBad.name = true
    ∧ fileBad.content = none
    ∧ ((fileBad.name ∈ (pollScan (PollState.mk false [] [fileBad, fileGood] 1000)).1.processedFiles
        ∧ fileBad ∈ (pollScan (PollState.mk false [] [fileBad, fileGood] 1000)).1.dir
        ∧ fileBad.name ∈ (pollScan (PollState.mk false [] [fileBad, fileGood] 1000)).2.errors)
      ∧ (∀ (g : SpoolFile) (env : Envelope),
          g ∈ (PollState.mk false [] [fileBad, fileGood] 1000).dir →
          matchesSpoolName g.name = true →
          g.name ∉ (PollState.mk false [] [fileBad, fileGood] 1000).processedFiles →
          ¬((PollState.mk false [] [fileBad, fileGood] 1000).now - g.mtimeMs < 50) →
          g.content = some env →
          env ∈ (pollScan (PollState.mk false [] [fileBad, fileGood] 1000)).2.broadcasts)
      ∧ (∀ s2 : PollState, fileBad.name ∈ s2.processedFiles →
          fileBad.name ∉ (pollScan s2).2.reads)) :=
  ⟨by decide, by decide, by decide, by decide,
    undecodable_file_dropped_once (PollState.mk false [] [fileBad, fileGood] 1000) fileBad
      rfl (by decide) (by decide) (by decide) (by decide) (by decide) (by decide)⟩

/-- C6: a spool file younger than the grace window is not read, not
deleted and not broadcast by the current scan, which also leaves it out
of the processed set; a later scan in fallback mode, once the file is
aged past the window and still present and unprocessed, consumes it
normally. -/
theorem young_file_skipped_then_consumed (s : PollState) (f : SpoolFile)
    (hflag : s.redisAvailable = false)
    (hnd : (s.dir.map SpoolFile.name).Nodup)
    (hf : f ∈ s.dir) (hmatch : matchesSpoolName f.name = true)
    (hnew : f.name ∉ s.processedFiles)
    (hyoung : s.now - f.mtimeMs < 50) :
    (f.name ∉ (pollScan s).1.processedFiles ∧ f ∈ (pollScan s).1.dir
      ∧ f.name ∉ (pollScan s).2.reads ∧ f.name ∉ (pollScan s).2.deletes)
    ∧ (∀ (s2 : PollState) (env : Envelope), s2.redisAvailable = false →
        (s2.dir.map SpoolFile.name).Nodup → f ∈ s2.dir →
        f.name ∉ s2.processedFiles → ¬(s2.now - f.mtimeMs < 50) → f.content = some env →
        env ∈ (pollScan s2).2.broadcasts ∧ f.name ∈ (pollScan s2).2.deletes
          ∧ f ∉ (pollScan s2).1.dir ∧ f.name ∈ (pollScan s2).1.processedFiles) := by
  constructor
  · have hfilter_nd :
        ((s.dir.filter (fun g => matchesSpoolName g.name)).map SpoolFile.name).Nodup :=
      List.Nodup.sublist (List.Sublist.map SpoolFile.name (List.filter_sublist s.dir)) hnd
    rw [pollScan_eq s hflag]
    exact scan_gracefile s.now _ _ f hfilter_nd (List.mem_filter.mpr ⟨hf, hmatch⟩)
      hyoung hnew hf (List.not_mem_nil _) (List.not_mem_nil _)
  · intro s2 env h2flag h2nd h2f h2new h2age h2cont
    have hfilter_nd2 :
        ((s2.dir.filter (fun g => matchesSpoolName g.name)).map SpoolFile.name).Nodup :=
      List.Nodup.sublist (List.Sublist.map SpoolFile.name (List.filter_sublist s2.dir)) h2nd
    rw [pollScan_eq s2 h2flag]
    exact scan_goodfile s2.now _ _ f env hfilter_nd2 (List.mem_filter.mpr ⟨h2f, hmatch⟩)
      h2age h2cont h2new

/-- Witness for C6: a file twenty milliseconds old at scan time. -/
theorem young_file_skipped_then_consumed_witness :
    (PollState.mk false [] [fileYoung] 1000).redisAvailable = false
    ∧ fileYoung ∈ (PollState.mk false [] [fileYoung] 1000).dir
    ∧ (PollState.mk false [] [fileYoung] 1000).now - fileYoung.mtimeMs < 50
    ∧ ((fileYoung.name ∉ (pollScan (PollState.mk false [] [fileYoung] 1000)).1.processedFiles
        ∧ fileYoung ∈ (pollScan (PollState.mk false [] [fileYoung] 1000)).1.dir
        ∧ fileYoung.name ∉ (pollScan (PollState.mk false [] [fileYoung] 1000)).2.reads
        ∧ fileYoung.name ∉ (pollScan (PollState.mk false [] [fileYoung] 1000)).2.deletes)
      ∧ (∀ (s2 : PollState) (env : Envelope), s2.redisAvailable = false →
          (s2.dir.map SpoolFile.name).Nodup → fileYoung ∈ s2.dir →
          fileYoung.name ∉ s2.processedFiles → ¬(s2.now - fileYoung.mtimeMs < 50) →
          fileYoung.content = some env →
          env ∈ (pollScan s2).2.broadcasts ∧ fileYoung.name ∈ (pollScan s2).2.deletes
            ∧ fileYoung ∉ (pollScan s2).1.dir
            ∧ fileYoung.name ∈ (pollScan s2).1.processedFiles)) :=
  ⟨rfl, by decide, by decide,
    young_file_skipped_then_consumed (PollState.mk false [] [fileYoung] 1000) fileYoung
      rfl (by decide) (by decide) (by decide) (by decide) (by decide)⟩

/-- Counterexample to C7: on the success path of startRedis there is a
reachable point at which redisAvailable is already true while the
subscribe await has not completed, because the flag is assigned on line
134, before the subscribe call on line 138. -/
theorem flag_true_before_subscribe_cex :
    ∃ st ∈ startRedisTrace true true true,
      st.redisAvailable = true ∧ st.subscribeDone = false := by
  refine ⟨{ redisAvailable := true, subscribeDone := false }, ?_, rfl, rfl⟩
  decide

/-- C7 as amended: redisAvailable becomes true only after both broker
connections have connected, but it is assigned before the subscribe
completes; if the subscribe then fails, the catch block resets the flag
to false, so at the end of the startup sequence the flag is true only
when both connects and the subscribe all succeeded. -/
theorem flag_requires_both_connects (clientOk subOk subscribeOk : Bool) :
    ((startRedisTrace clientOk subOk subscribeOk).all
        (fun st => !st.redisAvailable || (clientOk && subOk))) = true
    ∧ ((!((startRedisTrace clientOk subOk subscribeOk).getLastD
          { redisAvailable := false, subscribeDone := false }).redisAvailable)
        || (clientOk && subOk && subscribeOk
            && ((startRedisTrace clientOk subOk subscribeOk).getLastD
              { redisAvailable := false, subscribeDone := false }).subscribeDone)) = true := by
  cases clientOk <;> cases subOk <;> cases subscribeOk <;> decide

end WsServer
